import Mathlib

/-!
Verification model of the LUT interpolation engine in `lut_interpolator.py`.

The engine interpolates transistor quantities over (gm/Id, VDS, length).
Numbers are modelled by exact rationals; the scipy `RBFInterpolator` objects
are opaque black boxes in the source, so fitted plane interpolants are
modelled as abstract functions `ℚ → ℚ → ℚ` (from (gm_id, length_nm) to the
value), produced by an abstract deterministic fitting function.  Everything
with algorithmic content in the source (bias-plane bookkeeping, clamping and
linear blending across VDS planes, the raw-data length inversion with its
bracket search and fallbacks) is translated directly from the Python code.
-/

namespace LUTSpec

/-- Row of a normalized sample table: the `(gm_id, length_nm, value)` triple
produced by `_append_data` in the source. -/
structure Row where
  gm_id : ℚ
  length_nm : ℚ
  value : ℚ
deriving DecidableEq

/-- Canonical quantity name for current density, as in the source. -/
def qIdW : String := "id_w"

/-- Canonical quantity name for intrinsic gain, as in the source. -/
def qGmro : String := "gmro"

/-- Canonical quantity name for transit frequency, as in the source. -/
def qFt : String := "ft"

/-- The closed list of canonical quantities (`self.quantities` in the source). -/
def quantities : List String := [qIdW, qGmro, qFt]

/-- Model of `numpy.interp`: one-dimensional piecewise-linear interpolation of
value over the sample points, with clamping to the nearest edge sample outside
the sampled range.  The point list is assumed sorted by the first component. -/
def npInterp (x : ℚ) : List (ℚ × ℚ) → ℚ
  | [] => 0
  | [(_, y0)] => y0
  | (x0, y0) :: (x1, y1) :: rest =>
      if x ≤ x0 then y0
      else if x ≤ x1 then y0 + (x - x0) * (y1 - y0) / (x1 - x0)
      else npInterp x ((x1, y1) :: rest)

/-- Per-length gmro reconstruction (step 2 of `estimate_length_from_gmro`):
slice the plane table to the rows whose `length_nm` is exactly the integer
length `L`, sort by `gm_id`, and 1D-interpolate the value at the query
`gm_id`; an empty slice produces no entry. -/
def gmroAtLength (table : List Row) (gm_id : ℚ) (L : ℤ) : Option ℚ :=
  match table.filter (fun r => decide (r.length_nm = (L : ℚ))) with
  | [] => none
  | r0 :: rs =>
      some (npInterp gm_id (List.map (fun r => (r.gm_id, r.value))
        (List.insertionSort (fun a b => a.gm_id ≤ b.gm_id) (r0 :: rs))))

/-- The reconstruction map `gmro_pred` as an association list in the order of
the length universe (lengths with an empty slice are skipped). -/
def gmroPredList (table : List Row) (ls : List ℤ) (gm_id : ℚ) : List (ℤ × ℚ) :=
  ls.filterMap (fun L => (gmroAtLength table gm_id L).map (fun g => (L, g)))

/-- Model of the Python `min(candidates, key := k)` idiom: fold keeping the
current best, replacing it only on a strictly smaller key, so the first
occurrence of the minimal key wins. -/
def minByKey {α : Type} (key : α → ℚ) (b : α) (l : List α) : α :=
  l.foldl (fun acc y => if key y < key acc then y else acc) b

/-- Step 1 of `estimate_length_from_gmro`: among the bias values for which raw
gmro sample tables exist, pick the one at minimal absolute distance from the
requested VDS (first at minimum in ascending order of candidates). -/
def snapPlane (data : List (ℚ × List Row)) (vds_req : ℚ) : Option ℚ :=
  match List.insertionSort (fun a b => a ≤ b) (data.map Prod.fst) with
  | [] => none
  | x :: xs => some (minByKey (fun v => |v - vds_req|) x xs)

/-- Raw-table lookup for a bias value, mirroring `self.data["gmro"][vds_plane]`
(the key always comes from the table itself, so the default is unreachable). -/
def lookupTable (data : List (ℚ × List Row)) (v : ℚ) : List Row :=
  match data.find? (fun p => decide (p.1 = v)) with
  | some p => p.2
  | none => []

/-- The sorted reconstruction pairs `(L, gmro_pred L)` scanned by the bracket
search, composed exactly as in the source: snap the plane, slice per length
in the (deduplicated) length universe, and order by length. -/
def predPairs (data : List (ℚ × List Row)) (ls : List ℤ) (gm_id vds_req : ℚ) :
    List (ℤ × ℚ) :=
  match snapPlane data vds_req with
  | none => []
  | some vp =>
      List.insertionSort (fun a b => a.1 ≤ b.1)
        (gmroPredList (lookupTable data vp) ls.dedup gm_id)

/-- Step 3 of `estimate_length_from_gmro`: scan adjacent pairs in ascending
length order and return the first whose reconstructed values bracket the
measured gmro, inclusive, in either direction. -/
def findGmroBracket (g : ℚ) : List (ℤ × ℚ) → Option ((ℤ × ℚ) × (ℤ × ℚ))
  | (L1, g1) :: (L2, g2) :: rest =>
      if (g1 ≤ g ∧ g ≤ g2) ∨ (g2 ≤ g ∧ g ≤ g1) then some ((L1, g1), (L2, g2))
      else findGmroBracket g ((L2, g2) :: rest)
  | _ => none

/-- Step 4 of `estimate_length_from_gmro`: continuous length estimate from the
winning bracket, with the near-flat guard taking the midpoint instead of
dividing by `g2 - g1`. -/
def contEstimate (g : ℚ) (L1 : ℤ) (g1 : ℚ) (L2 : ℤ) (g2 : ℚ) : ℚ :=
  if |g2 - g1| < 1 / 1000000000000 then ((L1 : ℚ) + (L2 : ℚ)) / 2
  else (L1 : ℚ) + (g - g1) / (g2 - g1) * ((L2 : ℚ) - (L1 : ℚ))

/-- Failure modes of `estimate_length_from_gmro`: no gmro data loaded, length
universe never computed, or no reconstructed value at the snapped plane. -/
inductive EstErr where
  | noGmroData
  | notBuilt
  | noGmroAtPlane
deriving DecidableEq

/-- Model of `estimate_length_from_gmro` (with `return_continuous = True`):
returns the pair (continuous estimate, discrete estimate), or the error the
source raises.  `data` is the raw gmro plane store `self.data["gmro"]` and
`lengths` is `self.lengths`. -/
def estimate_length_from_gmro (data : List (ℚ × List Row))
    (lengths : Option (List ℤ)) (gm_id gmro_measured vds_req : ℚ) :
    Except EstErr (ℚ × ℤ) :=
  if data.isEmpty then Except.error EstErr.noGmroData
  else
    match lengths with
    | none => Except.error EstErr.notBuilt
    | some ls =>
      match predPairs data ls gm_id vds_req with
      | [] => Except.error EstErr.noGmroAtPlane
      | p :: ps =>
        match findGmroBracket gmro_measured (p :: ps) with
        | some ((L1, g1), (L2, g2)) =>
            Except.ok (contEstimate gmro_measured L1 g1 L2 g2, max L1 L2)
        | none =>
            Except.ok (((minByKey (fun pr => |pr.2 - gmro_measured|) p ps).1 : ℚ),
              (minByKey (fun pr => |pr.2 - gmro_measured|) p ps).1)

/-- The bounding-pair scan of `_interp_in_vds`: over the ascending plane list,
return the first adjacent pair `(v1, v2)` with `v1 ≤ vds ≤ v2`. -/
def findBracket (vds : ℚ) : List ℚ → Option (ℚ × ℚ)
  | v1 :: v2 :: rest =>
      if v1 ≤ vds ∧ vds ≤ v2 then some (v1, v2)
      else findBracket vds (v2 :: rest)
  | _ => none

/-- Model of `_interp_in_vds` for one quantity: `keys` is the list of bias
values with built plane interpolants and `pl` maps a bias value to its fitted
plane evaluated at (gm_id, length_nm).  Exact plane hit, clamping below and
above the available range, linear blending between the bounding planes, and
the defensive fall-through to the highest plane are translated branch for
branch; `none` is the "no interpolators" error. -/
def interp_in_vds (keys : List ℚ) (pl : ℚ → ℚ → ℚ → ℚ)
    (gm_id vds length_nm : ℚ) : Option ℚ :=
  match List.insertionSort (fun a b => a ≤ b) keys with
  | [] => none
  | a0 :: rest =>
      if vds ∈ keys then some (pl vds gm_id length_nm)
      else if vds < a0 then some (pl a0 gm_id length_nm)
      else if rest.getLastD a0 < vds then some (pl (rest.getLastD a0) gm_id length_nm)
      else
        match findBracket vds (a0 :: rest) with
        | some (v1, v2) =>
            some (pl v1 gm_id length_nm
              + (vds - v1) / (v2 - v1) * (pl v2 gm_id length_nm - pl v1 gm_id length_nm))
        | none => some (pl (rest.getLastD a0) gm_id length_nm)

/-- Failure modes of `predict`: unknown quantity name, or no interpolators
built for the requested quantity. -/
inductive PredictErr where
  | invalidQuantity
  | notBuilt
deriving DecidableEq

/-- State of a `LUTInterpolator` object: per quantity, the raw plane store
`self.data[q]` (bias value to accumulated sample table), the list of bias
values with built interpolants (the keys of `self.rbf[q]`), the fitted plane
evaluators themselves, and the length universe `self.lengths`. -/
structure LUTState where
  dat : String → List (ℚ × List Row)
  rbfKeys : String → List ℚ
  rbfPlanes : String → ℚ → ℚ → ℚ → ℚ
  lengths : Option (List ℤ)

/-- Model of `predict`: validate the quantity name against the canonical
list, then delegate to the cross-plane blender. -/
def predict (s : LUTState) (quantity : String) (gm_id vds length_nm : ℚ) :
    Except PredictErr ℚ :=
  if quantity ∈ quantities then
    match interp_in_vds (s.rbfKeys quantity) (s.rbfPlanes quantity) gm_id vds length_nm with
    | some y => Except.ok y
    | none => Except.error PredictErr.notBuilt
  else Except.error PredictErr.invalidQuantity

/-- Truncation of a rational toward zero, the behaviour of the Python `int`
conversion applied to the float channel lengths. -/
def pyInt (q : ℚ) : ℤ :=
  q.num.tdiv (q.den : ℤ)

/-- All `length_nm` values appearing in any plane table of any quantity, with
multiplicity (the union set is taken by deduplication afterwards). -/
def computeAllLengths (dat : String → List (ℚ × List Row)) : List ℚ :=
  quantities.flatMap (fun q => (dat q).flatMap (fun p => p.2.map (fun r => r.length_nm)))

/-- The length-universe update of `build_interpolators`: the sorted list of
int-cast distinct lengths, left at its previous value when no data is
loaded (the source only assigns `self.lengths` when `all_lengths` is
non-empty). -/
def computeLengths (dat : String → List (ℚ × List Row)) (old : Option (List ℤ)) :
    Option (List ℤ) :=
  if ((computeAllLengths dat).dedup).isEmpty then old
  else some (List.insertionSort (fun a b => a ≤ b) (((computeAllLengths dat).dedup).map pyInt))

/-- Model of `build_interpolators`: discard all previous interpolants, refit
one plane per (quantity, bias) pair with data from the raw store using the
abstract deterministic fitter `fit`, and recompute the length universe. -/
def build_interpolators (fit : List Row → ℚ → ℚ → ℚ) (s : LUTState) : LUTState :=
  { dat := s.dat
    rbfKeys := fun q => if q ∈ quantities then (s.dat q).map Prod.fst else []
    rbfPlanes := fun q v =>
      match (s.dat q).find? (fun p => decide (p.1 = v)) with
      | some p => fit p.2
      | none => fun _ _ => 0
    lengths := computeLengths s.dat s.lengths }

/-- The Python-min fold always returns one of the candidates. -/
lemma minByKey_mem {α : Type} (key : α → ℚ) (b : α) (l : List α) :
    minByKey key b l ∈ b :: l := by
  induction l generalizing b with
  | nil => simp [minByKey]
  | cons y t ih =>
    have hred : minByKey key b (y :: t)
        = minByKey key (if key y < key b then y else b) t := rfl
    rw [hred]
    rcases List.mem_cons.mp (ih (if key y < key b then y else b)) with h1 | h1
    · rw [h1]
      by_cases hc : key y < key b
      · simp [hc]
      · simp [hc]
    · exact List.mem_cons_of_mem _ (List.mem_cons_of_mem _ h1)

/-- The Python-min fold attains the minimal key among all candidates. -/
lemma minByKey_le {α : Type} (key : α → ℚ) (b : α) (l : List α) :
    ∀ x ∈ b :: l, key (minByKey key b l) ≤ key x := by
  induction l generalizing b with
  | nil =>
    intro x hx
    rcases List.mem_cons.mp hx with h | h
    · rw [h]; simp [minByKey]
    · exact absurd h (List.not_mem_nil x)
  | cons y t ih =>
    intro x hx
    have hred : minByKey key b (y :: t)
        = minByKey key (if key y < key b then y else b) t := rfl
    rw [hred]
    by_cases hc : key y < key b
    · rw [if_pos hc]
      rcases List.mem_cons.mp hx with h | h
      · rw [h]
        exact le_of_lt (lt_of_le_of_lt (ih y y (List.mem_cons_self y t)) hc)
      · exact ih y x h
    · rw [if_neg hc]
      rcases List.mem_cons.mp hx with h | h
      · rw [h]; exact ih b b (List.mem_cons_self b t)
      · rcases List.mem_cons.mp h with h2 | h2
        · rw [h2]
          exact le_trans (ih b b (List.mem_cons_self b t)) (le_of_not_lt hc)
        · exact ih b x (List.mem_cons_of_mem b h2)

/-- The Python-min fold either keeps the seed or strictly improves its key. -/
lemma minByKey_eq_or_lt {α : Type} (key : α → ℚ) (b : α) (l : List α) :
    minByKey key b l = b ∨ key (minByKey key b l) < key b := by
  induction l generalizing b with
  | nil => exact Or.inl rfl
  | cons y t ih =>
    have hred : minByKey key b (y :: t)
        = minByKey key (if key y < key b then y else b) t := rfl
    rw [hred]
    by_cases hc : key y < key b
    · rw [if_pos hc]
      rcases ih y with h | h
      · rw [h]; exact Or.inr hc
      · exact Or.inr (lt_trans h hc)
    · rw [if_neg hc]
      exact ih b

/-- On an ascending candidate list, the Python-min fold returns the least
candidate among those attaining the minimal key: exact key ties are broken
toward the earlier, hence smaller, candidate. -/
lemma minByKey_tie (key : ℚ → ℚ) (b : ℚ) (l : List ℚ)
    (hsort : List.Sorted (fun a c => a ≤ c) (b :: l)) :
    ∀ x ∈ b :: l, key x ≤ key (minByKey key b l) → minByKey key b l ≤ x := by
  induction l generalizing b with
  | nil =>
    intro x hx _
    rcases List.mem_cons.mp hx with h | h
    · rw [h]; simp [minByKey]
    · exact absurd h (List.not_mem_nil x)
  | cons y t ih =>
    intro x hx hkey
    have hby : b ≤ y := List.rel_of_sorted_cons hsort y (List.mem_cons_self y t)
    have hred : minByKey key b (y :: t)
        = minByKey key (if key y < key b then y else b) t := rfl
    rw [hred] at hkey ⊢
    by_cases hc : key y < key b
    · rw [if_pos hc] at hkey ⊢
      rcases List.mem_cons.mp hx with h | h
      · exfalso
        rw [h] at hkey
        have hy : key (minByKey key y t) ≤ key y :=
          minByKey_le key y t y (List.mem_cons_self y t)
        exact absurd (lt_of_le_of_lt (le_trans hkey hy) hc) (lt_irrefl _)
      · exact ih y hsort.of_cons x h hkey
    · rw [if_neg hc] at hkey ⊢
      have hsort2 : List.Sorted (fun a c => a ≤ c) (b :: t) := by
        rcases List.sorted_cons.mp hsort with ⟨hb, ht⟩
        exact List.sorted_cons.mpr ⟨fun z hz => hb z (List.mem_cons_of_mem y hz), ht.of_cons⟩
      rcases List.mem_cons.mp hx with h | h
      · rw [h]
        exact ih b hsort2 b (List.mem_cons_self b t) (h ▸ hkey)
      · rcases List.mem_cons.mp h with h2 | h2
        · rcases minByKey_eq_or_lt key b t with he | he
          · rw [he, h2]; exact hby
          · exfalso
            have hb1 : key b ≤ key x := by rw [h2]; exact le_of_not_lt hc
            exact absurd (lt_of_lt_of_le he (le_trans hb1 hkey)) (lt_irrefl _)
        · exact ih b hsort2 x (List.mem_cons_of_mem b h2) hkey

/-- In an ascending list the head is a lower bound for every member. -/
lemma sorted_head_le (a0 : ℚ) (rest : List ℚ)
    (h : List.Sorted (fun a b => a ≤ b) (a0 :: rest)) :
    ∀ x ∈ a0 :: rest, a0 ≤ x := by
  intro x hx
  rcases List.mem_cons.mp hx with h1 | h1
  · rw [h1]
  · exact List.rel_of_sorted_cons h x h1

/-- In an ascending list every member is bounded by the trailing element. -/
lemma sorted_le_last (rest : List ℚ) (a0 : ℚ)
    (h : List.Sorted (fun a b => a ≤ b) (a0 :: rest)) :
    ∀ x ∈ a0 :: rest, x ≤ rest.getLastD a0 := by
  induction rest generalizing a0 with
  | nil =>
    intro x hx
    rcases List.mem_cons.mp hx with h1 | h1
    · rw [h1]; simp [List.getLastD]
    · exact absurd h1 (List.not_mem_nil x)
  | cons b t ih =>
    intro x hx
    rw [List.getLastD_cons]
    rcases List.mem_cons.mp hx with h1 | h1
    · have hab : a0 ≤ b := List.rel_of_sorted_cons h b (List.mem_cons_self b t)
      have hbl : b ≤ t.getLastD b := ih b h.of_cons b (List.mem_cons_self b t)
      rw [h1]
      exact le_trans hab hbl
    · exact ih b h.of_cons x h1

/-- The trailing element of `a0 :: rest` is itself a member. -/
lemma getLastD_mem_cons {α : Type} (rest : List α) (a0 : α) :
    rest.getLastD a0 ∈ a0 :: rest := by
  induction rest generalizing a0 with
  | nil => simp [List.getLastD]
  | cons b t ih =>
    rw [List.getLastD_cons]
    exact List.mem_cons_of_mem a0 (ih b)

/-- Soundness of the gmro bracket scan: a returned pair of reconstruction
entries brackets the measured value, in one direction or the other. -/
lemma findGmroBracket_sound (g : ℚ) (l : List (ℤ × ℚ)) (p1 p2 : ℤ × ℚ)
    (h : findGmroBracket g l = some (p1, p2)) :
    (p1.2 ≤ g ∧ g ≤ p2.2) ∨ (p2.2 ≤ g ∧ g ≤ p1.2) := by
  induction l with
  | nil => simp [findGmroBracket] at h
  | cons a t ih =>
    cases t with
    | nil =>
      obtain ⟨L1, g1⟩ := a
      simp [findGmroBracket] at h
    | cons b t2 =>
      obtain ⟨L1, g1⟩ := a
      obtain ⟨L2, g2⟩ := b
      by_cases hc : (g1 ≤ g ∧ g ≤ g2) ∨ (g2 ≤ g ∧ g ≤ g1)
      · rw [findGmroBracket, if_pos hc] at h
        have h1 : p1 = (L1, g1) := (Prod.mk.injEq _ _ _ _ ▸ (Option.some.inj h)).1.symm
        have h2 : p2 = (L2, g2) := (Prod.mk.injEq _ _ _ _ ▸ (Option.some.inj h)).2.symm
        rw [h1, h2]
        exact hc
      · rw [findGmroBracket, if_neg hc] at h
        exact ih h

/-- On an ascending plane list, a query strictly above the left end of an
adjacent pair and weakly below its right end is matched exactly at that pair
by the bounding scan: every earlier adjacent pair ends at or below the left
end, so its test fails. -/
lemma findBracket_adjacent (v1 v2 vds : ℚ) (h1 : v1 < vds) (h2 : vds ≤ v2)
    (l2 : List ℚ) :
    ∀ l1 : List ℚ, List.Sorted (fun a b => a ≤ b) (l1 ++ v1 :: v2 :: l2) →
      findBracket vds (l1 ++ v1 :: v2 :: l2) = some (v1, v2) := by
  intro l1
  induction l1 with
  | nil =>
    intro _
    rw [List.nil_append, findBracket, if_pos ⟨le_of_lt h1, h2⟩]
  | cons a t ih =>
    intro hsort
    have hsort2 : List.Sorted (fun a b => a ≤ b) (t ++ v1 :: v2 :: l2) := by
      rw [List.cons_append] at hsort
      exact hsort.of_cons
    cases t with
    | nil =>
      have hcond : ¬ (a ≤ vds ∧ vds ≤ v1) := by
        intro hco
        exact absurd (lt_of_lt_of_le h1 hco.2) (lt_irrefl v1)
      show findBracket vds (a :: v1 :: v2 :: l2) = some (v1, v2)
      rw [findBracket, if_neg hcond]
      exact ih hsort2
    | cons b t2 =>
      have hsort3 : List.Sorted (fun a b => a ≤ b) (b :: (t2 ++ v1 :: v2 :: l2)) := by
        rw [List.cons_append] at hsort2
        exact hsort2
      have hbv : b ≤ v1 := List.rel_of_sorted_cons hsort3 v1 (by simp)
      have hcond : ¬ (a ≤ vds ∧ vds ≤ b) := by
        intro hco
        exact absurd (lt_of_lt_of_le h1 (le_trans hco.2 hbv)) (lt_irrefl v1)
      show findBracket vds (a :: b :: (t2 ++ v1 :: v2 :: l2)) = some (v1, v2)
      rw [findBracket, if_neg hcond]
      exact ih hsort2

/-- Unfolding of the blender once the sorted plane list is exposed. -/
lemma interp_in_vds_cons (keys : List ℚ) (pl : ℚ → ℚ → ℚ → ℚ)
    (gm_id vds length_nm a0 : ℚ) (rest : List ℚ)
    (hm : List.insertionSort (fun a b => a ≤ b) keys = a0 :: rest) :
    interp_in_vds keys pl gm_id vds length_nm =
      (if vds ∈ keys then some (pl vds gm_id length_nm)
       else if vds < a0 then some (pl a0 gm_id length_nm)
       else if rest.getLastD a0 < vds then some (pl (rest.getLastD a0) gm_id length_nm)
       else
         match findBracket vds (a0 :: rest) with
         | some (v1, v2) =>
             some (pl v1 gm_id length_nm
               + (vds - v1) / (v2 - v1) * (pl v2 gm_id length_nm - pl v1 gm_id length_nm))
         | none => some (pl (rest.getLastD a0) gm_id length_nm)) := by
  unfold interp_in_vds
  rw [hm]

/-- A bias value that is a key of the plane map is served by its own plane. -/
lemma interp_in_vds_mem (keys : List ℚ) (pl : ℚ → ℚ → ℚ → ℚ)
    (gm_id length_nm v : ℚ) (hv : v ∈ keys) :
    interp_in_vds keys pl gm_id v length_nm = some (pl v gm_id length_nm) := by
  have hne : List.insertionSort (fun a b => a ≤ b) keys ≠ [] := by
    intro h
    have hmem : v ∈ List.insertionSort (fun a b => a ≤ b) keys :=
      (List.perm_insertionSort (fun a b => a ≤ b) keys).mem_iff.mpr hv
    rw [h] at hmem
    exact absurd hmem (List.not_mem_nil v)
  obtain ⟨a0, rest, hm⟩ := List.exists_cons_of_ne_nil hne
  rw [interp_in_vds_cons keys pl gm_id v length_nm a0 rest hm, if_pos hv]

/-- The sorted key list of the blender is sorted, stated for reuse. -/
lemma sorted_keys (keys : List ℚ) :
    List.Sorted (fun a b => a ≤ b) (List.insertionSort (fun a b => a ≤ b) keys) :=
  List.sorted_insertionSort (fun a b => a ≤ b) keys

/-- A query bias below every key is clamped to the least plane. -/
lemma interp_in_vds_below (keys : List ℚ) (pl : ℚ → ℚ → ℚ → ℚ)
    (gm_id length_nm x a0 : ℚ) (rest : List ℚ)
    (hm : List.insertionSort (fun a b => a ≤ b) keys = a0 :: rest)
    (hx : x < a0) :
    interp_in_vds keys pl gm_id x length_nm = some (pl a0 gm_id length_nm) := by
  have hnk : x ∉ keys := by
    intro hmem
    have h1 : x ∈ a0 :: rest := by
      rw [← hm]
      exact (List.perm_insertionSort (fun a b => a ≤ b) keys).mem_iff.mpr hmem
    have h2 : a0 ≤ x := sorted_head_le a0 rest (hm ▸ sorted_keys keys) x h1
    exact absurd (lt_of_le_of_lt h2 hx) (lt_irrefl a0)
  rw [interp_in_vds_cons keys pl gm_id x length_nm a0 rest hm, if_neg hnk, if_pos hx]

/-- A query bias above every key is clamped to the greatest plane. -/
lemma interp_in_vds_above (keys : List ℚ) (pl : ℚ → ℚ → ℚ → ℚ)
    (gm_id length_nm x a0 : ℚ) (rest : List ℚ)
    (hm : List.insertionSort (fun a b => a ≤ b) keys = a0 :: rest)
    (hx : rest.getLastD a0 < x) :
    interp_in_vds keys pl gm_id x length_nm
      = some (pl (rest.getLastD a0) gm_id length_nm) := by
  have hsorted : List.Sorted (fun a b => a ≤ b) (a0 :: rest) := hm ▸ sorted_keys keys
  have hnk : x ∉ keys := by
    intro hmem
    have h1 : x ∈ a0 :: rest := by
      rw [← hm]
      exact (List.perm_insertionSort (fun a b => a ≤ b) keys).mem_iff.mpr hmem
    have h2 : x ≤ rest.getLastD a0 := sorted_le_last rest a0 hsorted x h1
    exact absurd (lt_of_lt_of_le hx h2) (lt_irrefl (rest.getLastD a0))
  have hno : ¬ x < a0 := by
    have h2 : a0 ≤ rest.getLastD a0 :=
      sorted_le_last rest a0 hsorted a0 (List.mem_cons_self a0 rest)
    exact not_lt_of_le (le_of_lt (lt_of_le_of_lt h2 hx))
  rw [interp_in_vds_cons keys pl gm_id x length_nm a0 rest hm, if_neg hnk, if_neg hno,
    if_pos hx]

/-- A query bias strictly between two adjacent keys of the sorted plane list
is served by the linear blend of the two bounding planes. -/
lemma interp_in_vds_between (keys : List ℚ) (pl : ℚ → ℚ → ℚ → ℚ)
    (gm_id length_nm vds v1 v2 : ℚ) (l1 l2 : List ℚ)
    (hs : List.insertionSort (fun a b => a ≤ b) keys = l1 ++ v1 :: v2 :: l2)
    (h1 : v1 < vds) (h2 : vds < v2) (hnk : vds ∉ keys) :
    interp_in_vds keys pl gm_id vds length_nm =
      some (pl v1 gm_id length_nm
        + (vds - v1) / (v2 - v1) * (pl v2 gm_id length_nm - pl v1 gm_id length_nm)) := by
  obtain ⟨a0, rest, hcons⟩ : ∃ a0 rest, l1 ++ v1 :: v2 :: l2 = a0 :: rest := by
    cases l1 with
    | nil => exact ⟨v1, v2 :: l2, rfl⟩
    | cons a t => exact ⟨a, t ++ v1 :: v2 :: l2, rfl⟩
  have hm : List.insertionSort (fun a b => a ≤ b) keys = a0 :: rest := hs.trans hcons
  have hsorted : List.Sorted (fun a b => a ≤ b) (a0 :: rest) := hm ▸ sorted_keys keys
  have hsorted2 : List.Sorted (fun a b => a ≤ b) (l1 ++ v1 :: v2 :: l2) := by
    rw [hcons]; exact hsorted
  have hv1mem : v1 ∈ a0 :: rest := by
    rw [← hcons]; simp
  have hv2mem : v2 ∈ a0 :: rest := by
    rw [← hcons]; simp
  have hno1 : ¬ vds < a0 := by
    have ha : a0 ≤ v1 := sorted_head_le a0 rest hsorted v1 hv1mem
    exact not_lt_of_le (le_of_lt (lt_of_le_of_lt ha h1))
  have hno2 : ¬ rest.getLastD a0 < vds := by
    have hb : v2 ≤ rest.getLastD a0 := sorted_le_last rest a0 hsorted v2 hv2mem
    exact not_lt_of_le (le_of_lt (lt_of_lt_of_le h2 hb))
  have hbr : findBracket vds (a0 :: rest) = some (v1, v2) := by
    rw [← hcons]
    exact findBracket_adjacent v1 v2 vds h1 (le_of_lt h2) l2 l1 hsorted2
  rw [interp_in_vds_cons keys pl gm_id vds length_nm a0 rest hm, if_neg hnk, if_neg hno1,
    if_neg hno2, hbr]

/-- Reduction of the length estimator in the bracket-found case. -/
lemma estimate_bracket_eq (data : List (ℚ × List Row)) (ls : List ℤ)
    (gm_id g vds : ℚ) (p : ℤ × ℚ) (ps : List (ℤ × ℚ)) (L1 L2 : ℤ) (g1 g2 : ℚ)
    (hne : data.isEmpty = false)
    (hpred : predPairs data ls gm_id vds = p :: ps)
    (hbr : findGmroBracket g (p :: ps) = some ((L1, g1), (L2, g2))) :
    estimate_length_from_gmro data (some ls) gm_id g vds
      = Except.ok (contEstimate g L1 g1 L2 g2, max L1 L2) := by
  simp only [estimate_length_from_gmro, hne, hpred, hbr, Bool.false_eq_true, if_false]

/-- Reduction of the length estimator in the no-bracket fallback case. -/
lemma estimate_fallback_eq (data : List (ℚ × List Row)) (ls : List ℤ)
    (gm_id g vds : ℚ) (p : ℤ × ℚ) (ps : List (ℤ × ℚ))
    (hne : data.isEmpty = false)
    (hpred : predPairs data ls gm_id vds = p :: ps)
    (hbr : findGmroBracket g (p :: ps) = none) :
    estimate_length_from_gmro data (some ls) gm_id g vds
      = Except.ok (((minByKey (fun pr : ℤ × ℚ => |pr.2 - g|) p ps).1 : ℚ),
          (minByKey (fun pr : ℤ × ℚ => |pr.2 - g|) p ps).1) := by
  simp only [estimate_length_from_gmro, hne, hpred, hbr, Bool.false_eq_true, if_false]

/-- Reduction of the length estimator when the reconstruction map is empty. -/
lemma estimate_empty_eq (data : List (ℚ × List Row)) (ls : List ℤ)
    (gm_id g vds : ℚ)
    (hne : data.isEmpty = false)
    (hpred : predPairs data ls gm_id vds = []) :
    estimate_length_from_gmro data (some ls) gm_id g vds
      = Except.error EstErr.noGmroAtPlane := by
  simp only [estimate_length_from_gmro, hne, hpred, Bool.false_eq_true, if_false]

/-- Bounds on the continuous estimate produced from a bracketing pair. -/
lemma contEstimate_bounds (g g1 g2 : ℚ) (L1 L2 : ℤ) (hL : L1 ≤ L2)
    (hbet : (g1 ≤ g ∧ g ≤ g2) ∨ (g2 ≤ g ∧ g ≤ g1)) :
    (L1 : ℚ) ≤ contEstimate g L1 g1 L2 g2 ∧ contEstimate g L1 g1 L2 g2 ≤ (L2 : ℚ) := by
  have hLQ : (L1 : ℚ) ≤ (L2 : ℚ) := Int.cast_le.mpr hL
  unfold contEstimate
  by_cases hflat : |g2 - g1| < 1 / 1000000000000
  · rw [if_pos hflat]
    constructor <;> linarith
  · rw [if_neg hflat]
    have hne : g2 - g1 ≠ 0 := by
      intro h0
      exact hflat (by rw [h0]; norm_num)
    have h01 : 0 ≤ (g - g1) / (g2 - g1) ∧ (g - g1) / (g2 - g1) ≤ 1 := by
      rcases hbet with ⟨ha, hb⟩ | ⟨ha, hb⟩
      · have hd : 0 < g2 - g1 := by
          rcases lt_or_eq_of_le (le_trans ha hb) with h | h
          · linarith
          · exact absurd (by linarith : g2 - g1 = 0) hne
        constructor
        · exact div_nonneg (by linarith) (le_of_lt hd)
        · rw [div_le_one hd]; linarith
      · have hrw : (g - g1) / (g2 - g1) = (g1 - g) / (g1 - g2) := by
          rw [← neg_div_neg_eq]
          ring_nf
        have hd : 0 < g1 - g2 := by
          rcases lt_or_eq_of_le (le_trans ha hb) with h | h
          · linarith
          · exact absurd (by linarith : g2 - g1 = 0) hne
        rw [hrw]
        constructor
        · exact div_nonneg (by linarith) (le_of_lt hd)
        · rw [div_le_one hd]; linarith
    have hmul1 : 0 ≤ (g - g1) / (g2 - g1) * ((L2 : ℚ) - (L1 : ℚ)) :=
      mul_nonneg h01.1 (by linarith)
    have hmul2 : (g - g1) / (g2 - g1) * ((L2 : ℚ) - (L1 : ℚ)) ≤ (L2 : ℚ) - (L1 : ℚ) := by
      nlinarith [h01.1, h01.2]
    constructor <;> linarith

/-- Gmro sample table used for the concrete policy checks: at the snapped
plane, length 500 reconstructs to gmro 30 and length 700 to gmro 40. -/
def demoRows : List Row := [⟨10, 500, 30⟩, ⟨10, 700, 40⟩]

/-- Concrete raw gmro plane store with a single plane at bias 2/5. -/
def demoData : List (ℚ × List Row) := [(2/5, demoRows)]

/-- Gmro sample table whose only row has the non-integer length 500.7. -/
def rowsNonInt : List Row := [⟨10, 5007/10, 30⟩]

/-- Per-quantity raw store holding only the non-integer-length gmro table. -/
def datNonInt : String → List (ℚ × List Row) :=
  fun q => if q = qGmro then [(2/5, rowsNonInt)] else []

/-- Concrete engine state with two plane keys and the plane evaluator that
returns the plane bias itself, used to exercise the blending rules. -/
def demoState : LUTState :=
  { dat := fun _ => []
    rbfKeys := fun _ => [1/5, 2/5]
    rbfPlanes := fun _ v _ _ => v
    lengths := none }

/-- A quantity name outside the canonical set, used as the invalid input. -/
def qBad : String := "foo"

/-- C7: for every state and every argument tuple, predict called with a
quantity name outside the closed set of canonical quantities fails with the
invalid-quantity error and never returns a value, regardless of whether any
data was loaded or built. -/
theorem predict_unknown_quantity (s : LUTState) (q : String)
    (hq : q ∉ quantities) (gm_id vds length_nm : ℚ) :
    predict s q gm_id vds length_nm = Except.error PredictErr.invalidQuantity := by
  simp only [predict, if_neg hq]

/-- Witness for the invalid-quantity theorem at a concrete state and name. -/
theorem predict_unknown_quantity_witness :
    predict demoState qBad 0 0 0 = Except.error PredictErr.invalidQuantity :=
  predict_unknown_quantity demoState qBad (by decide) 0 0 0

/-- The length-universe update is idempotent when the raw store is fixed. -/
lemma computeLengths_idem (dat : String → List (ℚ × List Row))
    (old : Option (List ℤ)) :
    computeLengths dat (computeLengths dat old) = computeLengths dat old := by
  unfold computeLengths
  by_cases h : ((computeAllLengths dat).dedup).isEmpty
  · simp [h]
  · simp [h]

/-- C8: rebuilding twice with no intervening record or load yields an engine
whose predict answers agree with the once-rebuilt engine on every query, and
the length universe is unchanged by the second rebuild. -/
theorem rebuild_idempotent (fit : List Row → ℚ → ℚ → ℚ) (s : LUTState)
    (q : String) (gm_id vds length_nm : ℚ) :
    predict (build_interpolators fit (build_interpolators fit s)) q gm_id vds length_nm
      = predict (build_interpolators fit s) q gm_id vds length_nm
    ∧ (build_interpolators fit (build_interpolators fit s)).lengths
      = (build_interpolators fit s).lengths := by
  constructor
  · rfl
  · show computeLengths s.dat (computeLengths s.dat s.lengths)
      = computeLengths s.dat s.lengths
    exact computeLengths_idem s.dat s.lengths

/-- C4: the snapped reconstruction plane is a raw-table bias key at minimum
absolute distance from the query bias, and on an exact distance tie the lower
bias wins. -/
theorem snap_plane_nearest (data : List (ℚ × List Row)) (vds_req m : ℚ)
    (hm : snapPlane data vds_req = some m) :
    m ∈ data.map Prod.fst
    ∧ (∀ x ∈ data.map Prod.fst, |m - vds_req| ≤ |x - vds_req|)
    ∧ (∀ x ∈ data.map Prod.fst, |x - vds_req| = |m - vds_req| → m ≤ x) := by
  unfold snapPlane at hm
  cases hsort : List.insertionSort (fun a b => a ≤ b) (data.map Prod.fst) with
  | nil =>
    rw [hsort] at hm
    exact absurd hm (by simp)
  | cons x xs =>
    rw [hsort] at hm
    have hminj : m = minByKey (fun v => |v - vds_req|) x xs := (Option.some.inj hm).symm
    have hsorted : List.Sorted (fun a b => a ≤ b) (x :: xs) :=
      hsort ▸ sorted_keys (data.map Prod.fst)
    have hperm : ∀ z : ℚ, z ∈ x :: xs ↔ z ∈ data.map Prod.fst := by
      intro z
      rw [← hsort]
      exact (List.perm_insertionSort (fun a b => a ≤ b) (data.map Prod.fst)).mem_iff
    refine ⟨?_, ?_, ?_⟩
    · rw [hminj]
      exact (hperm _).mp (minByKey_mem (fun v => |v - vds_req|) x xs)
    · intro z hz
      rw [hminj]
      exact minByKey_le (fun v => |v - vds_req|) x xs z ((hperm z).mpr hz)
    · intro z hz heq
      rw [hminj]
      apply minByKey_tie (fun v => |v - vds_req|) x xs hsorted z ((hperm z).mpr hz)
      rw [← hminj]
      exact le_of_eq heq

/-- Witness for the plane-snap theorem: candidates 1/5 and 2/5 queried at
3/10 are equidistant and the lower bias 1/5 is chosen. -/
theorem snap_plane_nearest_witness :
    (1 : ℚ)/5 ∈ ([(1/5, ([] : List Row)), (2/5, [])] : List (ℚ × List Row)).map Prod.fst
    ∧ (∀ x ∈ ([(1/5, ([] : List Row)), (2/5, [])] : List (ℚ × List Row)).map Prod.fst,
        |(1 : ℚ)/5 - 3/10| ≤ |x - 3/10|)
    ∧ (∀ x ∈ ([(1/5, ([] : List Row)), (2/5, [])] : List (ℚ × List Row)).map Prod.fst,
        |x - (3 : ℚ)/10| = |(1 : ℚ)/5 - 3/10| → (1 : ℚ)/5 ≤ x) :=
  snap_plane_nearest [(1/5, []), (2/5, [])] (3/10) (1/5)
    (by norm_num [snapPlane, minByKey, List.insertionSort, List.orderedInsert])

/-- C5: when no adjacent reconstructed pair brackets the measurement, the
discrete answer is the reconstructed length at minimum absolute gmro
difference from the measurement, and the continuous answer equals that same
length cast to a rational. -/
theorem fallback_nearest (data : List (ℚ × List Row)) (ls : List ℤ)
    (gm_id g vds : ℚ) (p : ℤ × ℚ) (ps : List (ℤ × ℚ))
    (hne : data.isEmpty = false)
    (hpred : predPairs data ls gm_id vds = p :: ps)
    (hbr : findGmroBracket g (p :: ps) = none) :
    estimate_length_from_gmro data (some ls) gm_id g vds
      = Except.ok (((minByKey (fun pr : ℤ × ℚ => |pr.2 - g|) p ps).1 : ℚ),
          (minByKey (fun pr : ℤ × ℚ => |pr.2 - g|) p ps).1)
    ∧ minByKey (fun pr : ℤ × ℚ => |pr.2 - g|) p ps ∈ p :: ps
    ∧ (∀ x ∈ p :: ps, |(minByKey (fun pr : ℤ × ℚ => |pr.2 - g|) p ps).2 - g| ≤ |x.2 - g|) := by
  refine ⟨?_, ?_, ?_⟩
  · exact estimate_fallback_eq data ls gm_id g vds p ps hne hpred hbr
  · exact minByKey_mem (fun pr : ℤ × ℚ => |pr.2 - g|) p ps
  · intro x hx
    exact minByKey_le (fun pr : ℤ × ℚ => |pr.2 - g|) p ps x hx

/-- Witness for the no-bracket fallback: measured gmro 50 lies above the
reconstructed range 30..40, and length 700 (gmro 40, distance 10) wins. -/
theorem fallback_nearest_witness :
    estimate_length_from_gmro demoData (some [500, 700]) 10 50 (2/5)
      = Except.ok (((minByKey (fun pr : ℤ × ℚ => |pr.2 - (50 : ℚ)|) ((500 : ℤ), (30 : ℚ))
            [((700 : ℤ), (40 : ℚ))]).1 : ℚ),
          (minByKey (fun pr : ℤ × ℚ => |pr.2 - (50 : ℚ)|) ((500 : ℤ), (30 : ℚ))
            [((700 : ℤ), (40 : ℚ))]).1)
    ∧ minByKey (fun pr : ℤ × ℚ => |pr.2 - (50 : ℚ)|) ((500 : ℤ), (30 : ℚ)) [((700 : ℤ), (40 : ℚ))]
        ∈ ((500 : ℤ), (30 : ℚ)) :: [((700 : ℤ), (40 : ℚ))]
    ∧ (∀ x ∈ ((500 : ℤ), (30 : ℚ)) :: [((700 : ℤ), (40 : ℚ))],
        |(minByKey (fun pr : ℤ × ℚ => |pr.2 - (50 : ℚ)|) ((500 : ℤ), (30 : ℚ))
            [((700 : ℤ), (40 : ℚ))]).2 - 50| ≤ |x.2 - 50|) :=
  fallback_nearest demoData [500, 700] 10 50 (2/5) ((500 : ℤ), (30 : ℚ))
    [((700 : ℤ), (40 : ℚ))]
    (by norm_num [demoData])
    (by norm_num [predPairs, snapPlane, demoData, demoRows, lookupTable, gmroPredList,
      gmroAtLength, npInterp, minByKey, List.insertionSort, List.orderedInsert,
      List.dedup, List.filter, List.filterMap])
    (by norm_num [findGmroBracket])

/-- C1: when the ascending scan finds the first bracketing adjacent pair, the
discrete estimate returned is the max of the two bracketing lengths, not the
length nearest the continuous estimate; on the constructed bracket (500, 30),
(700, 40) with measured gmro 35 the continuous estimate is 600 and the
discrete estimate is 700. -/
theorem bracket_discrete_max (data : List (ℚ × List Row)) (ls : List ℤ)
    (gm_id g vds : ℚ) (p : ℤ × ℚ) (ps : List (ℤ × ℚ)) (L1 L2 : ℤ) (g1 g2 : ℚ)
    (hne : data.isEmpty = false)
    (hpred : predPairs data ls gm_id vds = p :: ps)
    (hbr : findGmroBracket g (p :: ps) = some ((L1, g1), (L2, g2))) :
    estimate_length_from_gmro data (some ls) gm_id g vds
      = Except.ok (contEstimate g L1 g1 L2 g2, max L1 L2)
    ∧ estimate_length_from_gmro demoData (some [500, 700]) 10 35 (2/5)
      = Except.ok (600, 700) := by
  constructor
  · exact estimate_bracket_eq data ls gm_id g vds p ps L1 L2 g1 g2 hne hpred hbr
  · norm_num [estimate_length_from_gmro, predPairs, snapPlane, demoData, demoRows,
      lookupTable, gmroPredList, gmroAtLength, npInterp, minByKey, findGmroBracket,
      contEstimate, List.insertionSort, List.orderedInsert, List.dedup, List.filter,
      List.filterMap]

/-- Witness for the max-rule theorem at the constructed bracket itself. -/
theorem bracket_discrete_max_witness :
    estimate_length_from_gmro demoData (some [500, 700]) 10 35 (2/5)
      = Except.ok (contEstimate 35 500 30 700 40, max (500 : ℤ) 700)
    ∧ estimate_length_from_gmro demoData (some [500, 700]) 10 35 (2/5)
      = Except.ok (600, 700) :=
  bracket_discrete_max demoData [500, 700] 10 35 (2/5) ((500 : ℤ), (30 : ℚ))
    [((700 : ℤ), (40 : ℚ))] 500 700 30 40
    (by norm_num [demoData])
    (by norm_num [predPairs, snapPlane, demoData, demoRows, lookupTable, gmroPredList,
      gmroAtLength, npInterp, minByKey, List.insertionSort, List.orderedInsert,
      List.dedup, List.filter, List.filterMap])
    (by norm_num [findGmroBracket])

/-- C6: when the winning bracket is numerically flat (the two reconstructed
values differ by less than 1e-12 in absolute value) the continuous estimate
is the midpoint of the two lengths and the dividing interpolation formula is
not used; the division form is only produced in the complementary branch. -/
theorem flat_bracket_no_division (data : List (ℚ × List Row)) (ls : List ℤ)
    (gm_id g vds : ℚ) (p : ℤ × ℚ) (ps : List (ℤ × ℚ)) (L1 L2 : ℤ) (g1 g2 : ℚ)
    (hne : data.isEmpty = false)
    (hpred : predPairs data ls gm_id vds = p :: ps)
    (hbr : findGmroBracket g (p :: ps) = some ((L1, g1), (L2, g2))) :
    (|g2 - g1| < 1 / 1000000000000 →
        estimate_length_from_gmro data (some ls) gm_id g vds
          = Except.ok (((L1 : ℚ) + (L2 : ℚ)) / 2, max L1 L2))
    ∧ (¬ |g2 - g1| < 1 / 1000000000000 →
        estimate_length_from_gmro data (some ls) gm_id g vds
          = Except.ok ((L1 : ℚ) + (g - g1) / (g2 - g1) * ((L2 : ℚ) - (L1 : ℚ)),
              max L1 L2)) := by
  constructor
  · intro hflat
    rw [estimate_bracket_eq data ls gm_id g vds p ps L1 L2 g1 g2 hne hpred hbr]
    unfold contEstimate
    rw [if_pos hflat]
  · intro hflat
    rw [estimate_bracket_eq data ls gm_id g vds p ps L1 L2 g1 g2 hne hpred hbr]
    unfold contEstimate
    rw [if_neg hflat]

/-- Gmro table whose two lengths reconstruct to the same value 30, producing
a numerically flat bracket. -/
def flatRows : List Row := [⟨10, 500, 30⟩, ⟨10, 700, 30⟩]

/-- Raw gmro plane store holding the flat table at bias 2/5. -/
def flatData : List (ℚ × List Row) := [(2/5, flatRows)]

/-- Witness for the flat-bracket theorem on the flat table: the continuous
answer is the midpoint 600. -/
theorem flat_bracket_no_division_witness :
    ((|(30 : ℚ) - 30| < 1 / 1000000000000 →
        estimate_length_from_gmro flatData (some [500, 700]) 10 30 (2/5)
          = Except.ok ((((500 : ℤ) : ℚ) + ((700 : ℤ) : ℚ)) / 2, max (500 : ℤ) 700))
    ∧ (¬ |(30 : ℚ) - 30| < 1 / 1000000000000 →
        estimate_length_from_gmro flatData (some [500, 700]) 10 30 (2/5)
          = Except.ok (((500 : ℤ) : ℚ)
              + ((30 : ℚ) - 30) / (30 - 30) * (((700 : ℤ) : ℚ) - ((500 : ℤ) : ℚ)),
              max (500 : ℤ) 700))) :=
  flat_bracket_no_division flatData [500, 700] 10 30 (2/5) ((500 : ℤ), (30 : ℚ))
    [((700 : ℤ), (30 : ℚ))] 500 700 30 30
    (by norm_num [flatData])
    (by norm_num [predPairs, snapPlane, flatData, flatRows, lookupTable, gmroPredList,
      gmroAtLength, npInterp, minByKey, List.insertionSort, List.orderedInsert,
      List.dedup, List.filter, List.filterMap])
    (by norm_num [findGmroBracket])

/-- C10: for a bracket with L1 strictly below L2, the continuous estimate
lies in the closed interval between the two lengths and the discrete
estimate dominates the continuous one. -/
theorem bracket_estimate_bounds (data : List (ℚ × List Row)) (ls : List ℤ)
    (gm_id g vds : ℚ) (p : ℤ × ℚ) (ps : List (ℤ × ℚ)) (L1 L2 : ℤ) (g1 g2 : ℚ)
    (hne : data.isEmpty = false)
    (hpred : predPairs data ls gm_id vds = p :: ps)
    (hbr : findGmroBracket g (p :: ps) = some ((L1, g1), (L2, g2)))
    (hL : L1 < L2) :
    estimate_length_from_gmro data (some ls) gm_id g vds
      = Except.ok (contEstimate g L1 g1 L2 g2, max L1 L2)
    ∧ (L1 : ℚ) ≤ contEstimate g L1 g1 L2 g2
    ∧ contEstimate g L1 g1 L2 g2 ≤ (L2 : ℚ)
    ∧ contEstimate g L1 g1 L2 g2 ≤ ((max L1 L2 : ℤ) : ℚ) := by
  have hbet := findGmroBracket_sound g (p :: ps) (L1, g1) (L2, g2) hbr
  have hb := contEstimate_bounds g g1 g2 L1 L2 (le_of_lt hL) hbet
  refine ⟨estimate_bracket_eq data ls gm_id g vds p ps L1 L2 g1 g2 hne hpred hbr,
    hb.1, hb.2, ?_⟩
  rw [max_eq_right (le_of_lt hL)]
  exact hb.2

/-- Witness for the estimate-bounds theorem at the constructed bracket. -/
theorem bracket_estimate_bounds_witness :
    estimate_length_from_gmro demoData (some [500, 700]) 10 35 (2/5)
      = Except.ok (contEstimate 35 500 30 700 40, max (500 : ℤ) 700)
    ∧ (((500 : ℤ) : ℚ)) ≤ contEstimate 35 500 30 700 40
    ∧ contEstimate 35 500 30 700 40 ≤ (((700 : ℤ) : ℚ))
    ∧ contEstimate 35 500 30 700 40 ≤ ((max (500 : ℤ) 700 : ℤ) : ℚ) :=
  bracket_estimate_bounds demoData [500, 700] 10 35 (2/5) ((500 : ℤ), (30 : ℚ))
    [((700 : ℤ), (40 : ℚ))] 500 700 30 40
    (by norm_num [demoData])
    (by norm_num [predPairs, snapPlane, demoData, demoRows, lookupTable, gmroPredList,
      gmroAtLength, npInterp, minByKey, List.insertionSort, List.orderedInsert,
      List.dedup, List.filter, List.filterMap])
    (by norm_num [findGmroBracket])
    (by norm_num)

/-- C2: for a quantity with at least two built planes and a query bias
strictly between the adjacent plane biases v1 < v2 of the sorted plane list,
predict answers y1 + t*(y2 - y1) with t = (bias - v1)/(v2 - v1), y1 and y2
being the two planes evaluated at the query point; equivalently the answer
is the convex combination (1-t)*predict(v1) + t*predict(v2). -/
theorem predict_linear_blend (s : LUTState) (q : String) (hq : q ∈ quantities)
    (gm_id length_nm vds v1 v2 : ℚ) (l1 l2 : List ℚ)
    (hs : List.insertionSort (fun a b => a ≤ b) (s.rbfKeys q) = l1 ++ v1 :: v2 :: l2)
    (h1 : v1 < vds) (h2 : vds < v2) (hnk : vds ∉ s.rbfKeys q) :
    predict s q gm_id vds length_nm
      = Except.ok (s.rbfPlanes q v1 gm_id length_nm
          + (vds - v1) / (v2 - v1)
            * (s.rbfPlanes q v2 gm_id length_nm - s.rbfPlanes q v1 gm_id length_nm))
    ∧ ∃ y1 y2, predict s q gm_id v1 length_nm = Except.ok y1
        ∧ predict s q gm_id v2 length_nm = Except.ok y2
        ∧ predict s q gm_id vds length_nm
            = Except.ok ((1 - (vds - v1) / (v2 - v1)) * y1
                + (vds - v1) / (v2 - v1) * y2) := by
  have hcore := interp_in_vds_between (s.rbfKeys q) (s.rbfPlanes q) gm_id length_nm
    vds v1 v2 l1 l2 hs h1 h2 hnk
  have hv1 : v1 ∈ s.rbfKeys q := by
    have hmem : v1 ∈ List.insertionSort (fun a b => a ≤ b) (s.rbfKeys q) := by
      rw [hs]; simp
    exact (List.perm_insertionSort (fun a b => a ≤ b) (s.rbfKeys q)).mem_iff.mp hmem
  have hv2 : v2 ∈ s.rbfKeys q := by
    have hmem : v2 ∈ List.insertionSort (fun a b => a ≤ b) (s.rbfKeys q) := by
      rw [hs]; simp
    exact (List.perm_insertionSort (fun a b => a ≤ b) (s.rbfKeys q)).mem_iff.mp hmem
  have he1 := interp_in_vds_mem (s.rbfKeys q) (s.rbfPlanes q) gm_id length_nm v1 hv1
  have he2 := interp_in_vds_mem (s.rbfKeys q) (s.rbfPlanes q) gm_id length_nm v2 hv2
  constructor
  · simp only [predict, hq, if_true, hcore]
  · refine ⟨s.rbfPlanes q v1 gm_id length_nm, s.rbfPlanes q v2 gm_id length_nm,
      ?_, ?_, ?_⟩
    · simp only [predict, hq, if_true, he1]
    · simp only [predict, hq, if_true, he2]
    · simp only [predict, hq, if_true, hcore]
      exact congrArg Except.ok (by ring)

/-- Witness for the linear-blend theorem: two planes at 1/5 and 2/5 whose
evaluators return the plane bias, queried midway at 3/10. -/
theorem predict_linear_blend_witness :
    predict demoState qGmro 7 (3/10) 9
      = Except.ok (demoState.rbfPlanes qGmro (1/5) 7 9
          + ((3 : ℚ)/10 - 1/5) / (2/5 - 1/5)
            * (demoState.rbfPlanes qGmro (2/5) 7 9 - demoState.rbfPlanes qGmro (1/5) 7 9))
    ∧ ∃ y1 y2, predict demoState qGmro 7 (1/5) 9 = Except.ok y1
        ∧ predict demoState qGmro 7 (2/5) 9 = Except.ok y2
        ∧ predict demoState qGmro 7 (3/10) 9
            = Except.ok ((1 - ((3 : ℚ)/10 - 1/5) / (2/5 - 1/5)) * y1
                + ((3 : ℚ)/10 - 1/5) / (2/5 - 1/5) * y2) :=
  predict_linear_blend demoState qGmro (by simp [quantities, qIdW, qGmro, qFt])
    7 9 (3/10) (1/5) (2/5) [] []
    (by norm_num [demoState, List.insertionSort, List.orderedInsert])
    (by norm_num) (by norm_num)
    (by norm_num [demoState])

/-- C3: a query bias below the least built plane bias answers exactly as a
query at the least plane bias, a query above the greatest answers exactly as
at the greatest, and a query equal to an available plane bias answers with
that plane's own evaluation. -/
theorem predict_clamp_policy (s : LUTState) (q : String) (hq : q ∈ quantities)
    (gm_id length_nm a0 : ℚ) (rest : List ℚ)
    (hm : List.insertionSort (fun a b => a ≤ b) (s.rbfKeys q) = a0 :: rest) :
    (∀ x, x < a0 →
        predict s q gm_id x length_nm = predict s q gm_id a0 length_nm
        ∧ predict s q gm_id a0 length_nm
            = Except.ok (s.rbfPlanes q a0 gm_id length_nm))
    ∧ (∀ x, rest.getLastD a0 < x →
        predict s q gm_id x length_nm
            = predict s q gm_id (rest.getLastD a0) length_nm
        ∧ predict s q gm_id (rest.getLastD a0) length_nm
            = Except.ok (s.rbfPlanes q (rest.getLastD a0) gm_id length_nm))
    ∧ (∀ v ∈ s.rbfKeys q, predict s q gm_id v length_nm
        = Except.ok (s.rbfPlanes q v gm_id length_nm)) := by
  have hmem : ∀ z : ℚ, z ∈ a0 :: rest → z ∈ s.rbfKeys q := by
    intro z hz
    have hz2 : z ∈ List.insertionSort (fun a b => a ≤ b) (s.rbfKeys q) := by
      rw [hm]; exact hz
    exact (List.perm_insertionSort (fun a b => a ≤ b) (s.rbfKeys q)).mem_iff.mp hz2
  have hkey : ∀ v ∈ s.rbfKeys q, predict s q gm_id v length_nm
      = Except.ok (s.rbfPlanes q v gm_id length_nm) := by
    intro v hv
    simp only [predict, hq, if_true,
      interp_in_vds_mem (s.rbfKeys q) (s.rbfPlanes q) gm_id length_nm v hv]
  refine ⟨?_, ?_, hkey⟩
  · intro x hx
    have hbelow := interp_in_vds_below (s.rbfKeys q) (s.rbfPlanes q) gm_id length_nm
      x a0 rest hm hx
    have ha0 : a0 ∈ s.rbfKeys q := hmem a0 (List.mem_cons_self a0 rest)
    constructor
    · rw [hkey a0 ha0]
      simp only [predict, hq, if_true, hbelow]
    · exact hkey a0 ha0
  · intro x hx
    have habove := interp_in_vds_above (s.rbfKeys q) (s.rbfPlanes q) gm_id length_nm
      x a0 rest hm hx
    have hlast : rest.getLastD a0 ∈ s.rbfKeys q := hmem _ (getLastD_mem_cons rest a0)
    constructor
    · rw [hkey _ hlast]
      simp only [predict, hq, if_true, habove]
    · exact hkey _ hlast

/-- Witness for the clamping theorem on the two-plane state: below 1/5 the
answer is the 1/5 plane, above 2/5 it is the 2/5 plane, and each key is
served by its own plane. -/
theorem predict_clamp_policy_witness :
    (∀ x, x < (1 : ℚ)/5 →
        predict demoState qGmro 7 x 9 = predict demoState qGmro 7 (1/5) 9
        ∧ predict demoState qGmro 7 (1/5) 9
            = Except.ok (demoState.rbfPlanes qGmro (1/5) 7 9))
    ∧ (∀ x, ([(2 : ℚ)/5] : List ℚ).getLastD (1/5) < x →
        predict demoState qGmro 7 x 9
            = predict demoState qGmro 7 (([(2 : ℚ)/5] : List ℚ).getLastD (1/5)) 9
        ∧ predict demoState qGmro 7 (([(2 : ℚ)/5] : List ℚ).getLastD (1/5)) 9
            = Except.ok (demoState.rbfPlanes qGmro
                (([(2 : ℚ)/5] : List ℚ).getLastD (1/5)) 7 9))
    ∧ (∀ v ∈ demoState.rbfKeys qGmro, predict demoState qGmro 7 v 9
        = Except.ok (demoState.rbfPlanes qGmro v 7 9)) :=
  predict_clamp_policy demoState qGmro (by simp [quantities, qIdW, qGmro, qFt])
    7 9 (1/5) [2/5]
    (by norm_num [demoState, List.insertionSort, List.orderedInsert])

/-- C9: beyond the missing-data and not-built failures, the estimator has a
third failure mode: with gmro data loaded and a length universe computed, it
still errors when the snapped plane's table has no row at any integer length
of the universe, because every per-length slice is empty; in particular rows
at non-integer lengths never contribute (the universe stores int-cast
lengths and slicing compares exactly), shown both in general for tables all
of whose rows have non-integer lengths and concretely for the single-row
table at length 5007/10, whose computed universe is the int-cast [500]. -/
theorem empty_reconstruction_error :
    (∀ (data : List (ℚ × List Row)) (ls : List ℤ) (gm_id g vds vp : ℚ),
        data.isEmpty = false →
        snapPlane data vds = some vp →
        (∀ L ∈ ls.dedup, gmroAtLength (lookupTable data vp) gm_id L = none) →
        estimate_length_from_gmro data (some ls) gm_id g vds
          = Except.error EstErr.noGmroAtPlane)
    ∧ (∀ (data : List (ℚ × List Row)) (ls : List ℤ) (gm_id g vds : ℚ),
        data.isEmpty = false →
        (∀ p ∈ data, ∀ r ∈ p.2, (r.length_nm).den ≠ 1) →
        estimate_length_from_gmro data (some ls) gm_id g vds
          = Except.error EstErr.noGmroAtPlane)
    ∧ (computeLengths datNonInt none = some [500]
        ∧ estimate_length_from_gmro (datNonInt qGmro) (computeLengths datNonInt none)
            10 35 (2/5)
          = Except.error EstErr.noGmroAtPlane) := by
  have hgen : ∀ (data : List (ℚ × List Row)) (ls : List ℤ) (gm_id g vds vp : ℚ),
      data.isEmpty = false →
      snapPlane data vds = some vp →
      (∀ L ∈ ls.dedup, gmroAtLength (lookupTable data vp) gm_id L = none) →
      estimate_length_from_gmro data (some ls) gm_id g vds
        = Except.error EstErr.noGmroAtPlane := by
    intro data ls gm_id g vds vp hne hsnap hnone
    apply estimate_empty_eq data ls gm_id g vds hne
    unfold predPairs
    rw [hsnap]
    have hpl : gmroPredList (lookupTable data vp) ls.dedup gm_id = [] := by
      unfold gmroPredList
      rw [List.filterMap_eq_nil_iff]
      intro L hL
      rw [hnone L hL]
      rfl
    show List.insertionSort (fun a b => a.1 ≤ b.1)
      (gmroPredList (lookupTable data vp) ls.dedup gm_id) = []
    rw [hpl]
    rfl
  have hnonint : ∀ (data : List (ℚ × List Row)) (ls : List ℤ) (gm_id g vds : ℚ),
      data.isEmpty = false →
      (∀ p ∈ data, ∀ r ∈ p.2, (r.length_nm).den ≠ 1) →
      estimate_length_from_gmro data (some ls) gm_id g vds
        = Except.error EstErr.noGmroAtPlane := by
    intro data ls gm_id g vds hne hden
    cases hsnap : snapPlane data vds with
    | none =>
      apply estimate_empty_eq data ls gm_id g vds hne
      unfold predPairs
      rw [hsnap]
    | some vp =>
      apply hgen data ls gm_id g vds vp hne hsnap
      intro L _
      have htab : ∀ r ∈ lookupTable data vp, (r.length_nm).den ≠ 1 := by
        intro r hr
        unfold lookupTable at hr
        cases hfind : data.find? (fun p => decide (p.1 = vp)) with
        | none =>
          rw [hfind] at hr
          exact absurd hr (List.not_mem_nil r)
        | some p =>
          rw [hfind] at hr
          exact hden p (List.mem_of_find?_eq_some hfind) r hr
      unfold gmroAtLength
      have hfilter : (lookupTable data vp).filter
          (fun r => decide (r.length_nm = (L : ℚ))) = [] := by
        rw [List.filter_eq_nil_iff]
        intro r hr
        simp only [decide_eq_true_eq]
        intro heq
        apply htab r hr
        rw [heq]
        exact Rat.den_intCast L
      rw [hfilter]
  refine ⟨hgen, hnonint, ?_, ?_⟩
  · norm_num [computeLengths, computeAllLengths, quantities, datNonInt, rowsNonInt,
      qIdW, qGmro, qFt, pyInt, List.dedup, List.insertionSort, List.orderedInsert,
      List.flatMap]
    decide
  · apply hnonint
    · norm_num [datNonInt]
    · intro p hp r hr
      simp only [datNonInt, qGmro, if_pos] at hp
      rcases List.mem_cons.mp hp with h | h
      · rw [h] at hr
        simp only [rowsNonInt] at hr
        rcases List.mem_cons.mp hr with h2 | h2
        · rw [h2]
          show ((5007 : ℚ)/10).den ≠ 1
          norm_num
        · exact absurd h2 (List.not_mem_nil r)
      · exact absurd h (List.not_mem_nil p)

/-- Witness for the empty-reconstruction theorem: the general parts applied
to the concrete non-integer-length store. -/
theorem empty_reconstruction_error_witness :
    estimate_length_from_gmro (datNonInt qGmro) (some [500]) 10 35 (2/5)
      = Except.error EstErr.noGmroAtPlane :=
  empty_reconstruction_error.2.1 (datNonInt qGmro) [500] 10 35 (2/5)
    (by norm_num [datNonInt, qGmro])
    (by
      intro p hp r hr
      simp only [datNonInt, qGmro, if_pos] at hp
      rcases List.mem_cons.mp hp with h | h
      · rw [h] at hr
        simp only [rowsNonInt] at hr
        rcases List.mem_cons.mp hr with h2 | h2
        · rw [h2]
          show ((5007 : ℚ)/10).den ≠ 1
          norm_num
        · exact absurd h2 (List.not_mem_nil r)
      · exact absurd h (List.not_mem_nil p))

end LUTSpec
